import Mathlib

/-!
Verification development for `scripts/stt-eval.py` (bibliomnomnom).

The script's pure core is shallowly embedded here:

* `similarity` — `SequenceMatcher(None, a.lower(), b.lower()).ratio()` from
  CPython's difflib, embedded in full (b2j construction with the autojunk
  purge, the junk-free longest-match scan, the two non-junk extension
  passes, the matching-blocks recursion, and the final 2*M/T ratio).
  Since the script passes `isjunk=None`, the junk set `bjunk` is empty;
  the two junk-extension loops of `find_longest_match` can never fire and
  are therefore omitted.  Python floats are modelled as exact rationals.
* `run_eval` — the orchestrator.  Thread-pool concurrency is modelled by
  an oracle `order` giving, for each iteration, the order in which
  `as_completed` yields the per-provider futures, and an oracle `env`
  giving each future's result (a value or a raised exception).
* `compute_consensus`, `generate_report` — pure functions over the
  collected results.
* the three provider adapters — HTTP traffic is modelled by oracles
  supplying each request's outcome (a response with status / body /
  elapsed time, or a raised exception such as a timeout).
-/

namespace SttEval

/-- Python `str.lower`, applied characterwise. -/
def pyLower (s : List Char) : List Char := s.map Char.toLower

/-- Indices `j` with `b[j] = c`, ascending — difflib's `b2j[c]` before the
autojunk purge. -/
def occList (b : List Char) (c : Char) : List Nat :=
  (List.range b.length).filter (fun j => b.get? j = some c)

/-- difflib autojunk: for `len(b) >= 200`, elements occurring more than
`len(b) // 100 + 1` times are "popular" and purged from `b2j`. -/
def isPopular (b : List Char) (c : Char) : Bool :=
  decide (200 ≤ b.length) && decide (b.length / 100 + 1 < (occList b c).length)

/-- difflib's `b2j` mapping after the autojunk purge (`isjunk` is `None` in
the script, so no junk purge happens). -/
def b2j (b : List Char) (c : Char) : List Nat :=
  if isPopular b c then [] else occList b c

/-- Bounds-checked character access; rows and candidates only ever use
in-range indices. -/
def charAt (s : List Char) (i : Nat) : Char := s.getD i (Char.ofNat 0)

/-- Candidate `j` indices consulted in row `i` of the `find_longest_match`
scan: the `b2j` entry for `a[i]`, restricted to `blo <= j < bhi` (the
`continue`/`break` filters of the Python inner loop). -/
def rowCands (a b : List Char) (blo bhi i : Nat) : List Nat :=
  (b2j b (charAt a i)).filter (fun j => blo ≤ j ∧ j < bhi)

/-- The `k = j2lenget(j-1, 0) + 1` of the scan's inner loop: `j2lenPrev` is
the previous row's `j2len` (Python binds `j2lenget` to the old dict), and a
`-1` lookup yields the default 0. -/
def flmK (j2lenPrev : Nat → Nat) (j : Nat) : Nat :=
  (if j = 0 then 0 else j2lenPrev (j - 1)) + 1

/-- One inner-loop step of the scan: process candidate `j` of row `i`.  The
state is `(newj2len, (besti, bestj, bestsize))`; `newj2len[j] = k` is
written unconditionally, the best triple is replaced when `k > bestsize`. -/
def flmStep (j2lenPrev : Nat → Nat) (i : Nat)
    (st : (Nat → Nat) × Nat × Nat × Nat) (j : Nat) :
    (Nat → Nat) × Nat × Nat × Nat :=
  ((fun j2 => if j2 = j then flmK j2lenPrev j else st.1 j2),
   if st.2.2.2 < flmK j2lenPrev j then
     (i + 1 - flmK j2lenPrev j, j + 1 - flmK j2lenPrev j, flmK j2lenPrev j)
   else st.2)

/-- One row of the scan: fold `flmStep` over the row's candidates, starting
from an empty `newj2len`. -/
def flmRow (a b : List Char) (blo bhi : Nat)
    (st : (Nat → Nat) × Nat × Nat × Nat) (i : Nat) :
    (Nat → Nat) × Nat × Nat × Nat :=
  (rowCands a b blo bhi i).foldl (flmStep st.1 i) ((fun _ => 0), st.2)

/-- The junk-free longest-match scan of `find_longest_match`: rows
`alo, ..., ahi-1`, initial best `(alo, blo, 0)`. -/
def flmScan (a b : List Char) (alo ahi blo bhi : Nat) : Nat × Nat × Nat :=
  ((List.range' alo (ahi - alo)).foldl (flmRow a b blo bhi)
    ((fun _ => 0), (alo, blo, 0))).2

/-- `a[i] == b[j]` with both indices in range. -/
def matchAt (a b : List Char) (i j : Nat) : Bool :=
  match a.get? i, b.get? j with
  | some x, some y => x = y
  | _, _ => false

/-- Backward non-junk extension loop of `find_longest_match`
(`bjunk` is empty, so `not isbjunk(...)` always holds).  Each pass
decrements `besti`, so the recursion is structural in it; at `besti = 0`
the guard `besti > alo` is false and the loop exits. -/
def extBack (a b : List Char) (alo blo : Nat) : Nat → Nat → Nat → Nat × Nat × Nat
  | 0, bj, bs => (0, bj, bs)
  | bi + 1, bj, bs =>
    if alo < bi + 1 ∧ blo < bj ∧ matchAt a b bi (bj - 1) then
      extBack a b alo blo bi (bj - 1) (bs + 1)
    else (bi + 1, bj, bs)

/-- Forward non-junk extension loop of `find_longest_match`.  Each pass
requires `besti + bestsize < ahi` and increments `bestsize`, so
`ahi - besti` passes can never be exceeded; the caller supplies that bound
as structural fuel, which therefore never runs out before the loop's own
guard stops it. -/
def extFwd (a b : List Char) (ahi bhi : Nat) (bi bj : Nat) : Nat → Nat → Nat
  | 0, bs => bs
  | fuel + 1, bs =>
    if bi + bs < ahi ∧ bj + bs < bhi ∧ matchAt a b (bi + bs) (bj + bs) then
      extFwd a b ahi bhi bi bj fuel (bs + 1)
    else bs

/-- difflib `find_longest_match(alo, ahi, blo, bhi)` for `isjunk = None`:
the scan followed by the two non-junk extension passes (the junk-extension
passes never fire because `bjunk` is empty). -/
def find_longest_match (a b : List Char) (alo ahi blo bhi : Nat) : Nat × Nat × Nat :=
  let s := flmScan a b alo ahi blo bhi
  let t := extBack a b alo blo s.1 s.2.1 s.2.2
  (t.1, t.2.1, extFwd a b ahi bhi t.1 t.2.1 (ahi - t.1) t.2.2)

/-- Total size of the matching blocks of `get_matching_blocks` — the
recursive divide-and-conquer around `find_longest_match` (the Python queue
realizes this recursion; sorting and collapsing adjacent blocks do not
change the total size, which is all `ratio()` consumes).  `fuel` dominates
the recursion depth; every call supplies more fuel than the total range
size, which the depth can never exceed. -/
def matchTotal (a b : List Char) : Nat → Nat → Nat → Nat → Nat → Nat
  | 0, _, _, _, _ => 0
  | fuel + 1, alo, ahi, blo, bhi =>
    let m := find_longest_match a b alo ahi blo bhi
    if m.2.2 = 0 then 0
    else
      m.2.2 +
        ((if alo < m.1 ∧ blo < m.2.1 then matchTotal a b fuel alo m.1 blo m.2.1 else 0) +
         (if m.1 + m.2.2 < ahi ∧ m.2.1 + m.2.2 < bhi then
            matchTotal a b fuel (m.1 + m.2.2) ahi (m.2.1 + m.2.2) bhi
          else 0))

/-- difflib `SequenceMatcher.ratio()`: `2*M / (len(a) + len(b))`, and `1.0`
when both sequences are empty (`_calculate_ratio`). -/
def seqRatio (a b : List Char) : ℚ :=
  if a.length + b.length = 0 then 1
  else 2 * (matchTotal a b (a.length + b.length + 1) 0 a.length 0 b.length : ℚ)
        / (a.length + b.length)

/-- `similarity(a, b)` from the script:
`SequenceMatcher(None, a.lower(), b.lower()).ratio()`. -/
def similarity (a b : String) : ℚ := seqRatio (pyLower a.data) (pyLower b.data)

/-! ### Reflexivity of the longest-match scan on equal sequences

For the claim `similarity(a, a) == 1.0` we show that on equal sequences the
scan's running best block always lies on the diagonal, so the extension
passes grow it to the full sequence and `ratio` returns 1. -/

lemma mem_occList {b : List Char} {ch : Char} {j : Nat} :
    j ∈ occList b ch ↔ j < b.length ∧ b.get? j = some ch := by
  simp [occList, List.mem_filter, List.mem_range]

lemma mem_b2j {b : List Char} {ch : Char} {j : Nat} (h : j ∈ b2j b ch) :
    isPopular b ch = false ∧ j < b.length ∧ b.get? j = some ch := by
  unfold b2j at h
  split at h
  · simp at h
  · exact ⟨by simpa using ‹¬isPopular b ch = true›, mem_occList.mp h⟩

lemma mem_b2j_of {b : List Char} {ch : Char} {j : Nat}
    (hpop : isPopular b ch = false) (hj : j < b.length) (hget : b.get? j = some ch) :
    j ∈ b2j b ch := by
  unfold b2j
  rw [if_neg (by simp [hpop])]
  exact mem_occList.mpr ⟨hj, hget⟩

lemma mem_rowCands {a b : List Char} {blo bhi i j : Nat} :
    j ∈ rowCands a b blo bhi i ↔ j ∈ b2j b (charAt a i) ∧ blo ≤ j ∧ j < bhi := by
  simp [rowCands, List.mem_filter]

lemma get?_charAt {c : List Char} {j : Nat} (hj : j < c.length) :
    c.get? j = some (charAt c j) := by
  rcases List.get?_eq_some.mpr ⟨hj, rfl⟩ with h
  rw [h]
  unfold charAt
  rw [List.getD_eq_getElem?_getD, ← List.get?_eq_getElem?, h]
  rfl

lemma charAt_of_get? {c : List Char} {j : Nat} {ch : Char} (h : c.get? j = some ch) :
    charAt c j = ch := by
  unfold charAt
  rw [List.getD_eq_getElem?_getD, ← List.get?_eq_getElem?, h]
  rfl

/-- A candidate of any row is a candidate of its own (diagonal) row. -/
lemma cands_self {c : List Char} {i j : Nat} (h : j ∈ rowCands c c 0 c.length i) :
    j ∈ rowCands c c 0 c.length j := by
  rcases mem_rowCands.mp h with ⟨hb, -, hj⟩
  rcases mem_b2j hb with ⟨hpop, hlt, hget⟩
  refine mem_rowCands.mpr ⟨?_, Nat.zero_le _, hj⟩
  rw [charAt_of_get? hget]
  exact mem_b2j_of hpop hlt hget

/-- If row `i` (with `i` in range) has any candidate, then `i` itself is one. -/
lemma cands_diag {c : List Char} {i j : Nat} (hi : i < c.length)
    (h : j ∈ rowCands c c 0 c.length i) :
    i ∈ rowCands c c 0 c.length i := by
  rcases mem_rowCands.mp h with ⟨hb, -, -⟩
  rcases mem_b2j hb with ⟨hpop, -, -⟩
  exact mem_rowCands.mpr ⟨mem_b2j_of hpop hi (get?_charAt hi), Nat.zero_le _, hi⟩

lemma rowCands_pairwise (a b : List Char) (blo bhi i : Nat) :
    (rowCands a b blo bhi i).Pairwise (· < ·) := by
  apply List.Pairwise.filter
  unfold b2j
  split
  · exact List.Pairwise.nil
  · exact List.Pairwise.filter _ (List.pairwise_lt_range _)

/-- The `j2len` dynamic program on equal sequences: length of the current
junk-free match run ending at row `i`, candidate `j`. -/
def dpR (c : List Char) : Nat → Nat → Nat
  | 0, j => if j ∈ rowCands c c 0 c.length 0 then 1 else 0
  | i + 1, 0 => if 0 ∈ rowCands c c 0 c.length (i + 1) then 1 else 0
  | i + 1, j + 1 =>
    if (j + 1) ∈ rowCands c c 0 c.length (i + 1) then dpR c i j + 1 else 0

lemma dpR_zero_right (c : List Char) (i : Nat) :
    dpR c i 0 = if 0 ∈ rowCands c c 0 c.length i then 1 else 0 := by
  cases i <;> rfl

lemma dpR_of_not_mem {c : List Char} {i j : Nat}
    (h : j ∉ rowCands c c 0 c.length i) : dpR c i j = 0 := by
  cases i with
  | zero => simp [dpR, h]
  | succ i => cases j with
    | zero => simp [dpR, h]
    | succ j => simp [dpR, h]

lemma dpR_of_mem_zero {c : List Char} {i : Nat}
    (h : 0 ∈ rowCands c c 0 c.length i) : dpR c i 0 = 1 := by
  rw [dpR_zero_right, if_pos h]

lemma dpR_of_mem_succ {c : List Char} {i j : Nat}
    (h : (j + 1) ∈ rowCands c c 0 c.length (i + 1)) :
    dpR c (i + 1) (j + 1) = dpR c i j + 1 := by
  simp [dpR, h]

lemma dpR_zero_left {c : List Char} {j : Nat}
    (h : j ∈ rowCands c c 0 c.length 0) : dpR c 0 j = 1 := by
  simp [dpR, h]

lemma dpR_le_right (c : List Char) : ∀ i j, dpR c i j ≤ i + 1
  | 0, j => by rw [show dpR c 0 j = if j ∈ rowCands c c 0 c.length 0 then 1 else 0 from rfl]; split <;> omega
  | i + 1, 0 => by rw [dpR_zero_right]; split <;> omega
  | i + 1, j + 1 => by
    show (if (j + 1) ∈ rowCands c c 0 c.length (i + 1) then dpR c i j + 1 else 0) ≤ _
    split
    · have := dpR_le_right c i j; omega
    · omega

/-- Off-diagonal runs are dominated by the diagonal run at the smaller row:
`j ≤ i` case. -/
lemma dpR_le_diag_left (c : List Char) : ∀ j i, j ≤ i → dpR c i j ≤ dpR c j j
  | 0, i, _ => by
    rw [dpR_zero_right]
    split
    · rw [dpR_of_mem_zero (cands_self ‹_›)]
    · omega
  | j + 1, 0, h => by omega
  | j + 1, i + 1, h => by
    by_cases hm : (j + 1) ∈ rowCands c c 0 c.length (i + 1)
    · rw [dpR_of_mem_succ hm, dpR_of_mem_succ (cands_self hm)]
      have := dpR_le_diag_left c j i (by omega)
      omega
    · rw [dpR_of_not_mem hm]; omega

/-- Off-diagonal runs are dominated by the diagonal run at the smaller row:
`i ≤ j` case (`i` must be a genuine row index). -/
lemma dpR_le_diag_right (c : List Char) :
    ∀ i j, i ≤ j → i < c.length → dpR c i j ≤ dpR c i i
  | 0, j, _, hi => by
    by_cases hm : j ∈ rowCands c c 0 c.length 0
    · rw [dpR_zero_left hm, dpR_of_mem_zero (cands_diag hi hm)]
    · rw [dpR_of_not_mem hm]; omega
  | i + 1, 0, h, _ => by omega
  | i + 1, j + 1, h, hi => by
    by_cases hm : (j + 1) ∈ rowCands c c 0 c.length (i + 1)
    · rw [dpR_of_mem_succ hm, dpR_of_mem_succ (cands_diag hi hm)]
      have := dpR_le_diag_right c i j (by omega) (by omega)
      omega
    · rw [dpR_of_not_mem hm]; omega

/-- Contents of the scan's `j2len` after a full row on equal sequences. -/
def rowVal (c : List Char) (i j : Nat) : Nat :=
  if j ∈ rowCands c c 0 c.length i then dpR c i j else 0

/-- The `j2len` the scan holds when it starts row `i` (empty before row 0). -/
def prevRow (c : List Char) : Nat → Nat → Nat
  | 0, _ => 0
  | i + 1, j => rowVal c i j

/-- The `k` computed by the inner loop equals the dynamic program's value. -/
lemma kOf_eq {c : List Char} {i j : Nat} (h : j ∈ rowCands c c 0 c.length i) :
    flmK (prevRow c i) j = dpR c i j := by
  unfold flmK
  cases j with
  | zero => simp [dpR_of_mem_zero h]
  | succ j =>
    rw [if_neg (Nat.succ_ne_zero j), Nat.add_sub_cancel]
    cases i with
    | zero => simp [prevRow, dpR_zero_left h]
    | succ i =>
      rw [dpR_of_mem_succ h]
      show rowVal c i j + 1 = dpR c i j + 1
      unfold rowVal
      split
      · rfl
      · rw [dpR_of_not_mem ‹_›]

/-- The function component of the inner fold: each candidate's slot is set
to its `k`; everything else keeps the initial value. -/
lemma foldl_flmStep_fst (fprev : Nat → Nat) (i : Nat) :
    ∀ (cs : List Nat) (f0 : Nat → Nat) (b0 : Nat × Nat × Nat) (j2 : Nat),
    (cs.foldl (flmStep fprev i) (f0, b0)).1 j2 =
      if j2 ∈ cs then flmK fprev j2 else f0 j2
  | [], f0, b0, j2 => by simp
  | j :: cs, f0, b0, j2 => by
    rw [List.foldl_cons,
      show flmStep fprev i (f0, b0) j =
        ((fun j2 => if j2 = j then flmK fprev j else f0 j2),
         (flmStep fprev i (f0, b0) j).2) from rfl,
      foldl_flmStep_fst fprev i cs _ _ j2]
    by_cases hcs : j2 ∈ cs
    · simp [hcs]
    · by_cases hj : j2 = j
      · subst hj; simp [hcs]
      · simp [hcs, hj]

/-- Goodness of a running best block on equal sequences: it is diagonal and
ends within the sequence. -/
def GoodB (c : List Char) (b : Nat × Nat × Nat) : Prop :=
  b.1 = b.2.1 ∧ b.1 + b.2.2 ≤ c.length

/-- All candidates of all rows before `m` score at most `s`. -/
def DomRows (c : List Char) (m s : Nat) : Prop :=
  ∀ i2, i2 < m → ∀ j ∈ rowCands c c 0 c.length i2, dpR c i2 j ≤ s

/-- Main inner-fold invariant on equal sequences: folding a row's remaining
candidates keeps the best block diagonal and in range, never decreases the
best size, and dominates the processed candidates. -/
lemma foldl_flmStep_best (c : List Char) (i : Nat) (hi : i < c.length) :
    ∀ (cs done : List Nat), rowCands c c 0 c.length i = done ++ cs →
    ∀ (f0 : Nat → Nat) (b0 : Nat × Nat × Nat),
    GoodB c b0 → DomRows c i b0.2.2 → (∀ j ∈ done, dpR c i j ≤ b0.2.2) →
    GoodB c (cs.foldl (flmStep (prevRow c i) i) (f0, b0)).2 ∧
    b0.2.2 ≤ (cs.foldl (flmStep (prevRow c i) i) (f0, b0)).2.2.2 ∧
    (∀ j ∈ cs, dpR c i j ≤ (cs.foldl (flmStep (prevRow c i) i) (f0, b0)).2.2.2)
  | [], done, hsplit, f0, b0, hgood, hdom, hdone => by
    exact ⟨hgood, le_refl _, by simp⟩
  | j :: cs, done, hsplit, f0, b0, hgood, hdom, hdone => by
    have hjmem : j ∈ rowCands c c 0 c.length i := by
      rw [hsplit]; exact List.mem_append.mpr (Or.inr (List.mem_cons_self _ _))
    have hk : flmK (prevRow c i) j = dpR c i j := kOf_eq hjmem
    rw [List.foldl_cons]
    have hsplit2 : rowCands c c 0 c.length i = (done ++ [j]) ++ cs := by
      rw [hsplit, List.append_assoc]; rfl
    have hstep : flmStep (prevRow c i) i (f0, b0) j =
        ((fun j2 => if j2 = j then flmK (prevRow c i) j else f0 j2),
         if b0.2.2 < flmK (prevRow c i) j then
           (i + 1 - flmK (prevRow c i) j, j + 1 - flmK (prevRow c i) j,
            flmK (prevRow c i) j)
         else b0) := rfl
    by_cases hupd : b0.2.2 < flmK (prevRow c i) j
    · -- the best is replaced; show the new block is diagonal
      have hij : i = j := by
        rcases Nat.lt_trichotomy i j with hlt | heq | hgt
        · -- i < j: the diagonal candidate i was processed earlier in this row
          exfalso
          have hii : i ∈ rowCands c c 0 c.length i := cands_diag hi hjmem
          have hidone : i ∈ done := by
            have hmem := hii
            rw [hsplit] at hmem
            rcases List.mem_append.mp hmem with h | h
            · exact h
            · exfalso
              rcases List.mem_cons.mp h with h | h
              · omega
              · have hpw := rowCands_pairwise c c 0 c.length i
                rw [hsplit] at hpw
                rcases List.pairwise_append.mp hpw with ⟨-, hpw2, -⟩
                have := (List.pairwise_cons.mp hpw2).1 i h
                omega
          have h1 : dpR c i i ≤ b0.2.2 := hdone i hidone
          have h2 : dpR c i j ≤ dpR c i i := dpR_le_diag_right c i j (by omega) hi
          omega
        · exact heq
        · -- j < i: row j's diagonal candidate was dominated already
          exfalso
          have h1 : dpR c i j ≤ dpR c j j := dpR_le_diag_left c j i (by omega)
          have h2 : dpR c j j ≤ b0.2.2 := hdom j hgt j (cands_self hjmem)
          omega
      have hkle : flmK (prevRow c i) j ≤ i + 1 := by
        rw [hk, hij]; exact dpR_le_right c j j
      rw [hstep, if_pos hupd]
      have hgood2 : GoodB c
          (i + 1 - flmK (prevRow c i) j, j + 1 - flmK (prevRow c i) j,
           flmK (prevRow c i) j) := by
        refine ⟨by rw [hij], ?_⟩
        show i + 1 - flmK (prevRow c i) j + flmK (prevRow c i) j ≤ c.length
        omega
      have hdom2 : DomRows c i (flmK (prevRow c i) j) := fun i2 h2 j2 hj2 =>
        le_trans (hdom i2 h2 j2 hj2) (by omega)
      have hdone2 : ∀ j2 ∈ done ++ [j], dpR c i j2 ≤ flmK (prevRow c i) j := by
        intro j2 hj2
        rcases List.mem_append.mp hj2 with h2 | h2
        · exact le_trans (hdone j2 h2) (by omega)
        · rcases List.mem_cons.mp h2 with h2 | h2
          · subst h2; omega
          · simp at h2
      have ih := foldl_flmStep_best c i hi cs (done ++ [j]) hsplit2
        (fun j2 => if j2 = j then flmK (prevRow c i) j else f0 j2)
        (i + 1 - flmK (prevRow c i) j, j + 1 - flmK (prevRow c i) j,
         flmK (prevRow c i) j) hgood2 hdom2 hdone2
      refine ⟨ih.1, ?_, ?_⟩
      · have h3 := ih.2.1
        simp only at h3
        omega
      · intro j2 hj2
        rcases List.mem_cons.mp hj2 with h2 | h2
        · subst h2
          have h3 := ih.2.1
          simp only at h3
          omega
        · exact ih.2.2 j2 h2
    · -- no update: the candidate is already dominated
      rw [hstep, if_neg hupd]
      have hdone2 : ∀ j2 ∈ done ++ [j], dpR c i j2 ≤ b0.2.2 := by
        intro j2 hj2
        rcases List.mem_append.mp hj2 with h2 | h2
        · exact hdone j2 h2
        · rcases List.mem_cons.mp h2 with h2 | h2
          · subst h2; omega
          · simp at h2
      have ih := foldl_flmStep_best c i hi cs (done ++ [j]) hsplit2
        (fun j2 => if j2 = j then flmK (prevRow c i) j else f0 j2) b0
        hgood hdom hdone2
      refine ⟨ih.1, ih.2.1, ?_⟩
      intro j2 hj2
      rcases List.mem_cons.mp hj2 with h2 | h2
      · subst h2
        have h3 := ih.2.1
        omega
      · exact ih.2.2 j2 h2

/-- Row-by-row invariant of the scan on equal sequences: the best block
stays diagonal and in range. -/
lemma foldl_flmRow_good (c : List Char) :
    ∀ (m i0 : Nat), i0 + m ≤ c.length →
    ∀ (f0 : Nat → Nat) (b0 : Nat × Nat × Nat),
    (∀ j, f0 j = prevRow c i0 j) → GoodB c b0 → DomRows c i0 b0.2.2 →
    GoodB c ((List.range' i0 m).foldl (flmRow c c 0 c.length) (f0, b0)).2
  | 0, i0, hle, f0, b0, hf, hgood, hdom => by simpa using hgood
  | m + 1, i0, hle, f0, b0, hf, hgood, hdom => by
    rw [List.range'_succ, List.foldl_cons]
    have hf0 : f0 = prevRow c i0 := funext hf
    have hi0 : i0 < c.length := by omega
    have hrow : flmRow c c 0 c.length (f0, b0) i0 =
        (rowCands c c 0 c.length i0).foldl (flmStep (prevRow c i0) i0)
          ((fun _ => 0), b0) := by
      unfold flmRow
      rw [hf0]
    have hbest := foldl_flmStep_best c i0 hi0 (rowCands c c 0 c.length i0) []
      rfl (fun _ => 0) b0 hgood hdom (by simp)
    have hfst := foldl_flmStep_fst (prevRow c i0) i0
      (rowCands c c 0 c.length i0) (fun _ => 0) b0
    have hfn : ∀ j, (flmRow c c 0 c.length (f0, b0) i0).1 j = prevRow c (i0 + 1) j := by
      -- the new j2len is exactly rowVal of the processed row
      intro j
      rw [hrow, hfst j]
      show _ = rowVal c i0 j
      unfold rowVal
      split
      · exact kOf_eq ‹_›
      · rfl
    have hgood2 : GoodB c (flmRow c c 0 c.length (f0, b0) i0).2 := by
      rw [hrow]
      exact hbest.1
    have hdom2 : DomRows c (i0 + 1) (flmRow c c 0 c.length (f0, b0) i0).2.2.2 := by
      -- all rows up to i0 are dominated by the new best size
      rw [hrow]
      intro i2 h2 j hj
      rcases Nat.lt_or_ge i2 i0 with h3 | h3
      · exact le_trans (hdom i2 h3 j hj)
          (by have := hbest.2.1; omega)
      · have : i2 = i0 := by omega
        subst this
        exact hbest.2.2 j hj
    exact foldl_flmRow_good c m (i0 + 1) (by omega)
      (flmRow c c 0 c.length (f0, b0) i0).1 (flmRow c c 0 c.length (f0, b0) i0).2
      hfn hgood2 hdom2

/-- The scan on equal sequences returns a diagonal best block ending within
the sequence. -/
lemma flmScan_self_good (c : List Char) :
    GoodB c (flmScan c c 0 c.length 0 c.length) := by
  unfold flmScan
  rw [Nat.sub_zero]
  exact foldl_flmRow_good c c.length 0 (by omega) (fun _ => 0) (0, 0, 0)
    (fun j => rfl) ⟨rfl, by simp⟩ (fun i2 h2 => by omega)

/-- Backward extension on equal sequences from a diagonal block reaches the
start of the sequence. -/
lemma extBack_self (c : List Char) :
    ∀ (bi bs : Nat), bi + bs ≤ c.length →
    extBack c c 0 0 bi bi bs = (0, 0, bi + bs)
  | 0, bs, hle => by simp [extBack]
  | bi + 1, bs, hle => by
    have hm : matchAt c c bi bi = true := by
      have hlt : bi < c.length := by omega
      unfold matchAt
      rw [get?_charAt hlt]
      simp
    show (if 0 < bi + 1 ∧ 0 < bi + 1 ∧ matchAt c c bi (bi + 1 - 1) then
            extBack c c 0 0 bi (bi + 1 - 1) (bs + 1)
          else (bi + 1, bi + 1, bs)) = _
    rw [Nat.add_sub_cancel, if_pos ⟨Nat.succ_pos bi, Nat.succ_pos bi, hm⟩,
      extBack_self c bi (bs + 1) (by omega)]
    refine congrArg _ (congrArg _ ?_)
    omega

/-- Forward extension on equal sequences from the start reaches the end. -/
lemma extFwd_self (c : List Char) :
    ∀ (fuel bs : Nat), bs ≤ c.length → c.length ≤ bs + fuel →
    extFwd c c c.length c.length 0 0 fuel bs = c.length
  | 0, bs, hle, hge => by
    show bs = c.length
    omega
  | fuel + 1, bs, hle, hge => by
    show (if 0 + bs < c.length ∧ 0 + bs < c.length ∧ matchAt c c (0 + bs) (0 + bs) then
            extFwd c c c.length c.length 0 0 fuel (bs + 1)
          else bs) = _
    rcases Nat.lt_or_ge bs c.length with hlt | hge2
    · have hm : matchAt c c bs bs = true := by
        unfold matchAt
        rw [get?_charAt hlt]
        simp
      rw [if_pos ⟨by omega, by omega, by rw [Nat.zero_add]; exact hm⟩]
      exact extFwd_self c fuel (bs + 1) (by omega) (by omega)
    · rw [if_neg (fun hcontra => absurd hcontra.1 (by omega))]
      omega

/-- On equal sequences the top-level `find_longest_match` returns the whole
sequence as a single block. -/
lemma find_longest_match_self (c : List Char) :
    find_longest_match c c 0 c.length 0 c.length = (0, 0, c.length) := by
  obtain ⟨hdiag, hle⟩ := flmScan_self_good c
  rcases hscan : flmScan c c 0 c.length 0 c.length with ⟨bi, bj, bs⟩
  rw [hscan] at hdiag hle
  simp only at hdiag hle
  subst hdiag
  simp only [find_longest_match, hscan]
  rw [extBack_self c bi bs hle]
  simp only [Nat.sub_zero]
  rw [extFwd_self c c.length (bi + bs) hle (by omega)]

/-- On equal sequences the matching-block total is the whole length. -/
lemma matchTotal_self (c : List Char) (hn : 0 < c.length) (fuel : Nat) :
    matchTotal c c (fuel + 1) 0 c.length 0 c.length = c.length := by
  simp only [matchTotal, find_longest_match_self]
  rw [if_neg (by omega)]
  simp

/-- On equal non-empty sequences `ratio` is exactly 1. -/
lemma seqRatio_self (c : List Char) (hne : c ≠ []) : seqRatio c c = 1 := by
  have hn : 0 < c.length := List.length_pos.mpr hne
  unfold seqRatio
  rw [if_neg (by omega), matchTotal_self c hn]
  have hq : (c.length : ℚ) ≠ 0 := by exact_mod_cast hn.ne'
  field_simp
  ring

/-- C3: for every non-empty string `a`, `similarity(a, a)` equals exactly
1.0.  This holds even when the autojunk purge empties `b2j` (long strings
with popular characters): the scan's best block on equal inputs is always
diagonal, and the non-junk extension passes then grow it to the full
string. -/
theorem claim_C3_similarity_reflexive (a : String) (h : a ≠ "") :
    similarity a a = 1 := by
  unfold similarity
  apply seqRatio_self
  intro hc
  apply h
  have hdata : a.data = [] := by
    have hlen := congrArg List.length hc
    simp only [pyLower, List.length_map] at hlen
    exact List.length_eq_zero.mp hlen
  cases a with
  | mk l =>
    simp only [String.data] at hdata
    rw [hdata]

/-- Witness for C3 at the concrete non-empty string "abc". -/
theorem claim_C3_witness : similarity "abc" "abc" = 1 :=
  claim_C3_similarity_reflexive "abc" (by decide)

/-- C4 (refuted): `similarity` is NOT symmetric.  `SequenceMatcher`'s
greedy matching is order-sensitive: on `("abcb", "bcab")` the first block
chosen is "ab" (total match 2, ratio 1/2), while on `("bcab", "abcb")` it
is "bc" followed by "b" (total match 3, ratio 3/4).  Verified against
CPython's difflib. -/
theorem claim_C4_counterexample :
    similarity "abcb" "bcab" = 1 / 2 ∧ similarity "bcab" "abcb" = 3 / 4 ∧
    similarity "abcb" "bcab" ≠ similarity "bcab" "abcb" := by
  have hl1 : (pyLower "abcb".data).length = 4 := by decide
  have hl2 : (pyLower "bcab".data).length = 4 := by decide
  have hm1 : matchTotal (pyLower "abcb".data) (pyLower "bcab".data)
      (4 + 4 + 1) 0 4 0 4 = 2 := by decide
  have hm2 : matchTotal (pyLower "bcab".data) (pyLower "abcb".data)
      (4 + 4 + 1) 0 4 0 4 = 3 := by decide
  have e1 : similarity "abcb" "bcab" = 1 / 2 := by
    unfold similarity seqRatio
    rw [hl1, hl2, hm1]
    norm_num
  have e2 : similarity "bcab" "abcb" = 3 / 4 := by
    unfold similarity seqRatio
    rw [hl2, hl1, hm2]
    norm_num
  exact ⟨e1, e2, by rw [e1, e2]; norm_num⟩

/-- C10: when both arguments are empty, `similarity("", "")` returns 1.0
(difflib's `_calculate_ratio` returns 1.0 for total length 0). -/
theorem claim_C10_similarity_empty_empty : similarity "" "" = 1 := by
  have hl : (pyLower "".data).length = 0 := by decide
  unfold similarity seqRatio
  rw [hl]
  norm_num

/-! ### The evaluation orchestrator (`run_eval`)

Thread-pool concurrency is modelled by two oracles: `env it p` gives the
result of provider `p`'s future in (0-based) iteration `it` — either the
adapter's `(transcript, latency, error)` triple or a raised exception —
and `order it` gives the order in which `as_completed` yields that
iteration's futures (any permutation of the active providers).  Latencies
(Python floats) are exact rationals. -/

/-- A registry entry: provider name and required credential variable (the
`call` closure is modelled by the orchestrator's future-result oracle). -/
structure ProviderSpec where
  name : String
  keyName : String
deriving DecidableEq

/-- The script's fixed `PROVIDERS` registry. -/
def PROVIDERS : List ProviderSpec :=
  [⟨"ElevenLabs Scribe v2", "ELEVENLABS_API_KEY"⟩,
   ⟨"Deepgram Nova-3", "DEEPGRAM_API_KEY"⟩,
   ⟨"AssemblyAI Universal-2", "ASSEMBLYAI_API_KEY"⟩]

/-- Python truthiness of an optional string (`keys.get(...)`, adapter
`error`/`transcript` values): present and non-empty. -/
def pyTruthy : Option String → Bool
  | none => false
  | some s => !(s == "")

/-- `active = [p for p in providers if keys.get(p["key_name"])]`. -/
def activeProviders (providers : List ProviderSpec)
    (keys : String → Option String) : List ProviderSpec :=
  providers.filter (fun p => pyTruthy (keys p.keyName))

/-- One collected run: the dict appended to `all_results[name]`.  A `none`
field models an absent dict key; `transcript = some v` means the key is
present with Python value `v` (`v = none` is Python `None`). -/
structure RunEntry where
  iteration : Nat
  latency : ℚ
  transcript : Option (Option String) := none
  chars : Option Nat := none
  error : Option String := none
deriving DecidableEq

/-- What `future.result()` does for one (iteration, provider) pair: return
the adapter's `(transcript, latency, error)` triple, or raise an exception
whose `str(e)` is `msg`. -/
inductive FutureRes where
  | ok (transcript : Option String) (latency : ℚ) (error : Option String)
  | exn (msg : String)
deriving DecidableEq

/-- `run_eval`'s `try/except` around `future.result()`: an exception
becomes the `(None, 0.0, str(e))` triple. -/
def futureTriple : FutureRes → Option String × ℚ × Option String
  | .ok t lat err => (t, lat, err)
  | .exn e => (none, 0, some e)

/-- The `if error:` dichotomy of `run_eval`'s collection loop, building the
dict stored in `all_results[name]` (`iteration` is recorded 1-based;
`chars = len(transcript) if transcript else 0`). -/
def mkEntry (it : Nat) (res : FutureRes) : RunEntry :=
  if pyTruthy (futureTriple res).2.2 then
    { iteration := it + 1, latency := (futureTriple res).2.1,
      error := (futureTriple res).2.2 }
  else
    { iteration := it + 1, latency := (futureTriple res).2.1,
      transcript := some (futureTriple res).1,
      chars := some (if pyTruthy (futureTriple res).1 then
        ((futureTriple res).1.getD "").length else 0) }

/-- The `ResultSet`: `all_results`, an insertion-ordered dict from provider
name to its run list, as an association list. -/
abbrev ResultSet := List (String × List RunEntry)

/-- `all_results[name].append(entry)` — updates the first matching key
(dict keys are unique); a missing key is impossible for the orchestrator
(futures only exist for active providers). -/
def appendEntry : ResultSet → String → RunEntry → ResultSet
  | [], _, _ => []
  | (k, v) :: rest, name, e =>
    if k = name then (k, v ++ [e]) :: rest
    else (k, v) :: appendEntry rest name e

/-- `all_results = {p["name"]: [] for p in active}`. -/
def initResults (providers : List ProviderSpec)
    (keys : String → Option String) : ResultSet :=
  (activeProviders providers keys).map (fun p => (p.name, []))

/-- One iteration's `as_completed` collection loop. -/
def collectIteration (env : Nat → ProviderSpec → FutureRes) (it : Nat)
    (completed : List ProviderSpec) (acc : ResultSet) : ResultSet :=
  completed.foldl (fun acc2 p => appendEntry acc2 p.name (mkEntry it (env it p))) acc

/-- `run_eval`: abort with a fatal error when no provider is active
(`sys.exit(1)`), otherwise run `iterations` sequential iterations, each
collecting one outcome per active provider in `as_completed` order. -/
def run_eval (providers : List ProviderSpec) (keys : String → Option String)
    (env : Nat → ProviderSpec → FutureRes) (order : Nat → List ProviderSpec)
    (iterations : Nat) : Except String ResultSet :=
  if (activeProviders providers keys).isEmpty then
    .error "ERROR: No API keys found. Set keys in .env.local or environment."
  else
    .ok ((List.range iterations).foldl
      (fun acc it => collectIteration env it (order it) acc)
      (initResults providers keys))

/-- Both branches of the collection dichotomy record the 1-based iteration. -/
lemma mkEntry_iteration (it : Nat) (res : FutureRes) :
    (mkEntry it res).iteration = it + 1 := by
  unfold mkEntry
  split <;> rfl

lemma lookup_appendEntry (rs : ResultSet) (name : String) (e : RunEntry)
    (k : String) :
    List.lookup k (appendEntry rs name e) =
      if k = name then (List.lookup k rs).map (· ++ [e])
      else List.lookup k rs := by
  induction rs with
  | nil =>
    simp [appendEntry]
  | cons hd tl ih =>
    rcases hd with ⟨k2, v2⟩
    by_cases h2 : k2 = name
    · subst h2
      by_cases h3 : k = k2
      · subst h3
        simp [appendEntry, List.lookup]
      · simp [appendEntry, List.lookup, h3, beq_false_of_ne h3]
    · by_cases h3 : k = k2
      · subst h3
        simp [appendEntry, List.lookup, h2]
      · simp only [appendEntry, if_neg h2, List.lookup, beq_false_of_ne h3]
        exact ih

/-- One iteration appends, to key `k`, exactly the entries of the completed
providers named `k`, in completion order. -/
lemma lookup_collectIteration (env : Nat → ProviderSpec → FutureRes) (it : Nat)
    (k : String) :
    ∀ (L : List ProviderSpec) (acc : ResultSet),
    List.lookup k (collectIteration env it L acc) =
      (List.lookup k acc).map
        (· ++ (L.filter (fun p => p.name = k)).map (fun p => mkEntry it (env it p)))
  | [], acc => by
    simp [collectIteration]
  | p :: L, acc => by
    show List.lookup k (collectIteration env it L (appendEntry acc p.name (mkEntry it (env it p)))) = _
    rw [lookup_collectIteration env it k L, lookup_appendEntry]
    by_cases h2 : k = p.name
    · rw [if_pos h2]
      rw [show (p :: L).filter (fun p => p.name = k) =
            p :: L.filter (fun p => p.name = k) by
          rw [List.filter_cons, if_pos (by simp [h2])]]
      rcases List.lookup k acc with _ | v
      · rfl
      · simp
    · rw [if_neg h2]
      rw [show (p :: L).filter (fun p => p.name = k) =
            L.filter (fun p => p.name = k) by
          rw [List.filter_cons, if_neg (by simp; intro h3; exact h2 h3.symm)]]

/-- In a list of providers with `Nodup` names, filtering by the name of a
member yields exactly that member. -/
lemma filter_name_self :
    ∀ (active : List ProviderSpec), (active.map (fun q => q.name)).Nodup →
    ∀ p ∈ active, active.filter (fun q => q.name = p.name) = [p]
  | [], _, p, hp => by simp at hp
  | q :: rest, hnd, p, hp => by
    rw [List.map_cons, List.nodup_cons] at hnd
    rcases List.mem_cons.mp hp with h2 | h2
    · subst h2
      have hnil : rest.filter (fun q2 => q2.name = p.name) = [] := by
        apply List.filter_eq_nil_iff.mpr
        intro q2 hq2
        simp only [decide_eq_true_eq]
        intro h3
        exact hnd.1 (by rw [← h3]; exact List.mem_map_of_mem (fun r => r.name) hq2)
      rw [List.filter_cons, if_pos (by simp), hnil]
    · rw [List.filter_cons, if_neg, filter_name_self rest hnd.2 p h2]
      simp only [decide_eq_true_eq]
      intro h3
      exact hnd.1 (by rw [h3]; exact List.mem_map_of_mem (fun r => r.name) h2)

/-- Filtering any completion-order permutation of the active providers by a
member's name yields exactly that member. -/
lemma filter_name_perm {active L : List ProviderSpec} {p : ProviderSpec}
    (hnd : (active.map (fun q => q.name)).Nodup) (hp : p ∈ active)
    (hL : L.Perm active) :
    L.filter (fun q => q.name = p.name) = [p] := by
  have hfa := filter_name_self active hnd p hp
  have hperm : (L.filter (fun q => decide (q.name = p.name))).Perm [p] :=
    hfa ▸ hL.filter (fun q => decide (q.name = p.name))
  exact List.perm_singleton.mp hperm

lemma lookup_initResults_mem :
    ∀ (L : List ProviderSpec) (k : String), (∃ q ∈ L, q.name = k) →
    List.lookup k (L.map (fun q => (q.name, ([] : List RunEntry)))) = some []
  | [], k, h => by simp at h
  | q :: L, k, h => by
    by_cases h2 : k = q.name
    · simp [List.lookup, h2]
    · simp only [List.map_cons, List.lookup, beq_false_of_ne h2]
      apply lookup_initResults_mem L k
      rcases h with ⟨q2, hq2, hname⟩
      rcases List.mem_cons.mp hq2 with h3 | h3
      · exact absurd (h3 ▸ hname).symm h2
      · exact ⟨q2, h3, hname⟩

lemma lookup_initResults_not_mem :
    ∀ (L : List ProviderSpec) (k : String), (∀ q ∈ L, q.name ≠ k) →
    List.lookup k (L.map (fun q => (q.name, ([] : List RunEntry)))) = none
  | [], k, h => by simp
  | q :: L, k, h => by
    simp only [List.map_cons, List.lookup,
      beq_false_of_ne (fun h2 => h q (List.mem_cons_self _ _) h2.symm)]
    exact lookup_initResults_not_mem L k
      (fun q2 h2 => h q2 (List.mem_cons_of_mem _ h2))

/-- Per-provider content of the orchestrator's fold: an active provider's
list receives exactly one entry per iteration, in iteration order,
whatever the per-iteration completion orders and future results are. -/
lemma lookup_evalFold_active (providers : List ProviderSpec)
    (keys : String → Option String) (env : Nat → ProviderSpec → FutureRes)
    (order : Nat → List ProviderSpec) (p : ProviderSpec)
    (hnd : ((activeProviders providers keys).map (fun q => q.name)).Nodup)
    (hp : p ∈ activeProviders providers keys) :
    ∀ (n : Nat), (∀ it, it < n → (order it).Perm (activeProviders providers keys)) →
    List.lookup p.name ((List.range n).foldl
        (fun acc it => collectIteration env it (order it) acc)
        (initResults providers keys)) =
      some ((List.range n).map (fun it => mkEntry it (env it p)))
  | 0, hperm => by
    simpa using lookup_initResults_mem _ p.name ⟨p, hp, rfl⟩
  | n + 1, hperm => by
    rw [List.range_succ, List.foldl_append, List.foldl_cons, List.foldl_nil,
      lookup_collectIteration,
      lookup_evalFold_active providers keys env order p hnd hp n
        (fun it h2 => hperm it (by omega)),
      filter_name_perm hnd hp (hperm n (by omega))]
    simp [List.range_succ]

/-- The fold never creates keys: a name absent from the initial dict stays
absent. -/
lemma lookup_evalFold_none (providers : List ProviderSpec)
    (keys : String → Option String) (env : Nat → ProviderSpec → FutureRes)
    (order : Nat → List ProviderSpec) (k : String)
    (hk : List.lookup k (initResults providers keys) = none) :
    ∀ (n : Nat),
    List.lookup k ((List.range n).foldl
        (fun acc it => collectIteration env it (order it) acc)
        (initResults providers keys)) = none
  | 0 => by simpa using hk
  | n + 1 => by
    rw [List.range_succ, List.foldl_append, List.foldl_cons, List.foldl_nil,
      lookup_collectIteration,
      lookup_evalFold_none providers keys env order k hk n]
    rfl

/-- C2: for every iteration count and active-provider set, after evaluation
completes the `ResultSet` maps each active provider to exactly `n` entries
whose 1-based iteration indices are `1, ..., n` in order — whatever the
completion orders and however many futures failed — and providers without
a (truthy) credential have no entry at all. -/
theorem claim_C2_resultset_invariant (providers : List ProviderSpec)
    (keys : String → Option String) (env : Nat → ProviderSpec → FutureRes)
    (order : Nat → List ProviderSpec) (n : Nat)
    (hnd : (providers.map (fun q => q.name)).Nodup)
    (hne : activeProviders providers keys ≠ [])
    (hperm : ∀ it, it < n → (order it).Perm (activeProviders providers keys)) :
    ∃ rs, run_eval providers keys env order n = .ok rs ∧
      (∀ p ∈ activeProviders providers keys,
        ∃ l, List.lookup p.name rs = some l ∧ l.length = n ∧
          l.map (fun e => e.iteration) = List.range' 1 n) ∧
      (∀ p ∈ providers, p ∉ activeProviders providers keys →
        List.lookup p.name rs = none) := by
  have hndAct : ((activeProviders providers keys).map (fun q => q.name)).Nodup :=
    hnd.sublist (List.Sublist.map _ (List.filter_sublist providers))
  refine ⟨(List.range n).foldl (fun acc it => collectIteration env it (order it) acc)
      (initResults providers keys), ?_, ?_, ?_⟩
  · unfold run_eval
    rw [if_neg (by simpa using hne)]
  · intro p hp
    refine ⟨(List.range n).map (fun it => mkEntry it (env it p)),
      lookup_evalFold_active providers keys env order p hndAct hp n hperm, ?_, ?_⟩
    · simp
    · rw [List.map_map]
      rw [show ((fun e => RunEntry.iteration e) ∘ fun it => mkEntry it (env it p)) =
        (fun it => it + 1) from funext (fun it => mkEntry_iteration it (env it p))]
      rw [List.range'_eq_map_range]
      exact List.map_congr_left (fun it _ => Nat.add_comm it 1)
  · intro p hp hnact
    apply lookup_evalFold_none
    apply lookup_initResults_not_mem
    intro q hq h2
    have hqprov : q ∈ providers := List.mem_of_mem_filter hq
    have : q = p := List.inj_on_of_nodup_map hnd hqprov hp h2
    exact hnact (this ▸ hq)

/-- C8: if zero providers are active, evaluation aborts with the fatal
configuration error before any adapter invocation (the result does not
depend on the future oracle at all) and produces no `ResultSet`. -/
theorem claim_C8_no_active_fatal (providers : List ProviderSpec)
    (keys : String → Option String)
    (h : activeProviders providers keys = [])
    (env : Nat → ProviderSpec → FutureRes) (order : Nat → List ProviderSpec)
    (n : Nat) :
    run_eval providers keys env order n =
      .error "ERROR: No API keys found. Set keys in .env.local or environment." := by
  unfold run_eval
  rw [h]
  rfl

/-- Witness for C8: the full registry with every credential empty. -/
theorem claim_C8_witness :
    run_eval PROVIDERS (fun _ => some "") (fun _ _ => .exn "unreachable")
      (fun _ => []) 3 =
      .error "ERROR: No API keys found. Set keys in .env.local or environment." :=
  claim_C8_no_active_fatal PROVIDERS (fun _ => some "") (by decide)
    (fun _ _ => .exn "unreachable") (fun _ => []) 3

/-- The per-entry invariant of C9: exactly one of the `transcript` /
`error` dict keys is present (never both, never neither), a present
`error` is a non-empty string (the collection loop only takes the error
branch on a truthy error), and the 1-based iteration index is carried. -/
def entryOK (e : RunEntry) : Prop :=
  (e.transcript.isSome ∧ e.error = none ∨ e.transcript = none ∧ e.error.isSome) ∧
  e.error ≠ some "" ∧ 1 ≤ e.iteration

lemma pyTruthy_iff (o : Option String) :
    pyTruthy o = true ↔ ∃ s, o = some s ∧ s ≠ "" := by
  cases o with
  | none => simp [pyTruthy]
  | some s => simp [pyTruthy]

/-- Every entry the collection loop builds — also from a converted
exception — satisfies the dichotomy. -/
lemma mkEntry_entryOK (it : Nat) (res : FutureRes) : entryOK (mkEntry it res) := by
  unfold mkEntry
  by_cases h : pyTruthy (futureTriple res).2.2 = true
  · rw [if_pos h]
    rcases (pyTruthy_iff _).mp h with ⟨s, hs, hne⟩
    refine ⟨Or.inr ⟨rfl, by rw [hs]; rfl⟩, ?_, by show 1 ≤ it + 1; omega⟩
    show (futureTriple res).2.2 ≠ some ""
    rw [hs]
    simpa using hne
  · rw [if_neg h]
    exact ⟨Or.inl ⟨rfl, rfl⟩, by simp, by show 1 ≤ it + 1; omega⟩

lemma allOK_appendEntry :
    ∀ (rs : ResultSet) (name : String) (e : RunEntry),
    (∀ pr ∈ rs, ∀ e2 ∈ pr.2, entryOK e2) → entryOK e →
    ∀ pr ∈ appendEntry rs name e, ∀ e2 ∈ pr.2, entryOK e2
  | [], _, _, h, he => by simp [appendEntry]
  | (k, v) :: rest, name, e, h, he => by
    intro pr hpr e2 he2
    unfold appendEntry at hpr
    split at hpr
    · rcases List.mem_cons.mp hpr with h2 | h2
      · subst h2
        rcases List.mem_append.mp he2 with h3 | h3
        · exact h (k, v) (List.mem_cons_self _ _) e2 h3
        · rw [List.mem_singleton.mp h3]
          exact he
      · exact h pr (List.mem_cons_of_mem _ h2) e2 he2
    · rcases List.mem_cons.mp hpr with h2 | h2
      · subst h2
        exact h (k, v) (List.mem_cons_self _ _) e2 he2
      · exact allOK_appendEntry rest name e
          (fun pr2 hpr2 => h pr2 (List.mem_cons_of_mem _ hpr2)) he pr h2 e2 he2

lemma foldl_preserve {α β : Type} (P : α → Prop) (f : α → β → α) :
    ∀ (l : List β) (init : α), P init → (∀ a b, P a → P (f a b)) → P (l.foldl f init)
  | [], _, h0, _ => h0
  | x :: xs, init, h0, hstep => foldl_preserve P f xs (f init x) (hstep init x h0) hstep

/-- C9: every entry stored in the `ResultSet` — including those converted
from an unclassified exception at the orchestrator boundary — has exactly
one of the transcript / error keys, a non-empty error string when it is an
error, and carries its (1-based) iteration index and a latency value (the
latter is total in the model: both collection branches store one). -/
theorem claim_C9_outcome_dichotomy (providers : List ProviderSpec)
    (keys : String → Option String) (env : Nat → ProviderSpec → FutureRes)
    (order : Nat → List ProviderSpec) (n : Nat) (rs : ResultSet)
    (h : run_eval providers keys env order n = .ok rs) :
    ∀ pr ∈ rs, ∀ e ∈ pr.2, entryOK e := by
  unfold run_eval at h
  split at h
  · exact absurd h (by simp)
  · injection h with h
    subst h
    refine foldl_preserve (fun rs2 => ∀ pr ∈ rs2, ∀ e ∈ pr.2, entryOK e)
      (fun acc it => collectIteration env it (order it) acc)
      (List.range n) (initResults providers keys) ?_ ?_
    · intro pr hpr e he
      unfold initResults at hpr
      rcases List.mem_map.mp hpr with ⟨q, -, hq2⟩
      rw [← hq2] at he
      simp at he
    · intro acc it hacc
      exact foldl_preserve (fun rs2 => ∀ pr ∈ rs2, ∀ e ∈ pr.2, entryOK e)
        (fun acc2 p => appendEntry acc2 p.name (mkEntry it (env it p)))
        (order it) acc hacc
        (fun acc2 p hacc2 => allOK_appendEntry acc2 p.name (mkEntry it (env it p))
          hacc2 (mkEntry_entryOK it (env it p)))

/-- Concrete data for the orchestrator witnesses: two credentials set, one
empty; iteration 0 succeeds, iteration 1 raises. -/
def wKeys : String → Option String := fun k =>
  if k = "ELEVENLABS_API_KEY" then some "k1"
  else if k = "DEEPGRAM_API_KEY" then some "k2"
  else some ""

def wEnv : Nat → ProviderSpec → FutureRes := fun it _ =>
  if it = 0 then .ok (some "the quick brown fox") 2 none else .exn "boom"

def wOrder : Nat → List ProviderSpec := fun _ => activeProviders PROVIDERS wKeys

/-- Witness for C2 at the concrete two-active-provider configuration with
two iterations, one of which fails. -/
theorem claim_C2_witness :
    ∃ rs, run_eval PROVIDERS wKeys wEnv wOrder 2 = .ok rs ∧
      (∀ p ∈ activeProviders PROVIDERS wKeys,
        ∃ l, List.lookup p.name rs = some l ∧ l.length = 2 ∧
          l.map (fun e => e.iteration) = List.range' 1 2) ∧
      (∀ p ∈ PROVIDERS, p ∉ activeProviders PROVIDERS wKeys →
        List.lookup p.name rs = none) :=
  claim_C2_resultset_invariant PROVIDERS wKeys wEnv wOrder 2 (by decide)
    (by decide) (fun _ _ => List.Perm.refl _)

/-- The concrete `ResultSet` produced by the witness configuration. -/
def wRS : ResultSet :=
  match run_eval PROVIDERS wKeys wEnv wOrder 2 with
  | .ok rs => rs
  | .error _ => []

/-- Witness for C9: the first stored entry of the concrete witness
configuration satisfies the dichotomy. -/
theorem claim_C9_witness :
    entryOK { iteration := 1, latency := 2,
              transcript := some (some "the quick brown fox"),
              chars := some 19, error := none } :=
  claim_C9_outcome_dichotomy PROVIDERS wKeys wEnv wOrder 2 wRS rfl
    _ (List.mem_cons_self _ _) _ (List.mem_cons_self _ _)

/-! ### The consensus engine (`compute_consensus`) -/

/-- A run's contribution to the consensus pool: `run.get("transcript")`
must be truthy — the key present with a non-empty string. -/
def poolEntry (run : RunEntry) : Option String :=
  match run.transcript with
  | some (some s) => if s = "" then none else some s
  | _ => none

/-- `compute_consensus`'s pool (`transcripts`): every truthy transcript in
the `ResultSet`, in dict-value / run order. -/
def consensusPool (results : ResultSet) : List String :=
  results.flatMap (fun pr => pr.2.filterMap poolEntry)

/-- `score(t) = sum(similarity(t, other) for other in transcripts)` —
note the fixed argument order (`similarity` is not symmetric). -/
def consensusScore (pool : List String) (t : String) : ℚ :=
  (pool.map (fun other => similarity t other)).sum

/-- `compute_consensus`: empty pool gives `""`; otherwise a plurality vote
in similarity space, selecting the first strict maximizer of `score`
starting from `best_score = -1`, `best = transcripts[0]`. -/
def compute_consensus (results : ResultSet) : String :=
  match consensusPool results with
  | [] => ""
  | t0 :: _ =>
    ((consensusPool results).foldl
      (fun st t =>
        if consensusScore (consensusPool results) t > st.1 then
          (consensusScore (consensusPool results) t, t)
        else st)
      (-1, t0)).2

/-- First-strict-argmax characterization of the `score > best_score` fold:
either nothing beat the initial score, or the fold returns the first
element of maximal score, with all earlier elements strictly below it and
all later ones at most it. -/
lemma foldl_argmax {α : Type} (v : α → ℚ) :
    ∀ (l : List α) (b0 : ℚ × α),
    ((∀ x ∈ l, v x ≤ b0.1) ∧
      l.foldl (fun st t => if v t > st.1 then (v t, t) else st) b0 = b0) ∨
    (∃ l1 x l2, l = l1 ++ x :: l2 ∧
      l.foldl (fun st t => if v t > st.1 then (v t, t) else st) b0 = (v x, x) ∧
      b0.1 < v x ∧ (∀ y ∈ l1, v y < v x) ∧ (∀ y ∈ l2, v y ≤ v x))
  | [], b0 => Or.inl ⟨by simp, rfl⟩
  | t :: rest, b0 => by
    rw [List.foldl_cons]
    by_cases h : v t > b0.1
    · rw [if_pos h]
      rcases foldl_argmax v rest (v t, t) with ⟨hall, heq⟩ | ⟨l1, x, l2, hsplit, heq, hlt, hbefore, hafter⟩
      · refine Or.inr ⟨[], t, rest, by simp, heq, h, by simp, hall⟩
      · refine Or.inr ⟨t :: l1, x, l2, by rw [hsplit]; rfl, heq, ?_, ?_, hafter⟩
        · exact lt_trans h hlt
        · intro y hy
          rcases List.mem_cons.mp hy with h2 | h2
          · subst h2; exact hlt
          · exact hbefore y h2
    · rw [if_neg h]
      push_neg at h
      rcases foldl_argmax v rest b0 with ⟨hall, heq⟩ | ⟨l1, x, l2, hsplit, heq, hlt, hbefore, hafter⟩
      · refine Or.inl ⟨?_, heq⟩
        intro y hy
        rcases List.mem_cons.mp hy with h2 | h2
        · subst h2; exact h
        · exact hall y h2
      · refine Or.inr ⟨t :: l1, x, l2, by rw [hsplit]; rfl, heq, hlt, ?_, hafter⟩
        intro y hy
        rcases List.mem_cons.mp hy with h2 | h2
        · subst h2; exact lt_of_le_of_lt h hlt
        · exact hbefore y h2

lemma seqRatio_nonneg (a b : List Char) : 0 ≤ seqRatio a b := by
  unfold seqRatio
  split
  · norm_num
  · positivity

lemma similarity_nonneg (a b : String) : 0 ≤ similarity a b :=
  seqRatio_nonneg _ _

lemma consensusScore_nonneg (pool : List String) (t : String) :
    0 ≤ consensusScore pool t := by
  apply List.sum_nonneg
  intro x hx
  rcases List.mem_map.mp hx with ⟨other, -, h⟩
  rw [← h]
  exact similarity_nonneg t other

/-- C1: consensus pools every truthy transcript across the whole
`ResultSet`; an empty pool yields `""`; otherwise the chosen transcript is
a pool member whose summed similarity to every pool member strictly
exceeds every earlier-considered candidate's and is at least every later
candidate's — so ties go to the earliest in pool-insertion order. -/
theorem claim_C1_consensus_plurality (results : ResultSet) :
    (consensusPool results = [] → compute_consensus results = "") ∧
    (consensusPool results ≠ [] →
      ∃ l1 t l2, consensusPool results = l1 ++ t :: l2 ∧
        compute_consensus results = t ∧
        (∀ y ∈ l1, consensusScore (consensusPool results) y <
          consensusScore (consensusPool results) t) ∧
        (∀ y ∈ l2, consensusScore (consensusPool results) y ≤
          consensusScore (consensusPool results) t)) := by
  rcases hpool : consensusPool results with _ | ⟨t0, rest⟩
  · refine ⟨fun _ => ?_, fun h => absurd rfl h⟩
    unfold compute_consensus
    rw [hpool]
  · refine ⟨fun h => absurd h (List.cons_ne_nil _ _), fun _ => ?_⟩
    have hcc : compute_consensus results =
        ((t0 :: rest).foldl
          (fun st t =>
            if consensusScore (t0 :: rest) t > st.1 then
              (consensusScore (t0 :: rest) t, t)
            else st)
          (-1, t0)).2 := by
      unfold compute_consensus
      rw [hpool]
    rcases foldl_argmax (consensusScore (t0 :: rest)) (t0 :: rest)
        (-1, t0) with ⟨hall, -⟩ | ⟨l1, x, l2, hsplit, heq, -, hbefore, hafter⟩
    · exfalso
      have h1 := hall t0 (List.mem_cons_self _ _)
      have h2 := consensusScore_nonneg (t0 :: rest) t0
      simp only at h1
      linarith
    · refine ⟨l1, x, l2, hsplit, ?_, hbefore, hafter⟩
      rw [hcc, heq]

/-- Witness for C1 at a concrete `ResultSet` whose pool is empty (one
provider, one errored run). -/
theorem claim_C1_witness :
    compute_consensus [("ElevenLabs Scribe v2",
      [{ iteration := 1, latency := 0, error := some "HTTP 500: boom" }])] = "" :=
  (claim_C1_consensus_plurality _).1 (by rfl)

/-! ### Provider adapters

HTTP traffic is modelled by an oracle supplying each request's outcome:
a response (status code, raw text, optional decoded JSON body — `none`
means `resp.json()` raises — and the call's elapsed wall time) or a
raised exception (timeout, connection failure).  An adapter returns
`.ok (transcript, latency, error)` — the Python triple, with the
transcript slot carrying the raw JSON value — or `.error e` when a Python
exception escapes the adapter to its caller. -/

/-- Minimal model of a decoded JSON value. -/
inductive PyJson where
  | null
  | bool (b : Bool)
  | num (q : ℚ)
  | str (s : String)
  | arr (xs : List PyJson)
  | obj (kvs : List (String × PyJson))

/-- Python exception classes the adapters can raise or catch. -/
inductive PyExn where
  | requestErr (msg : String)
  | jsonDecode
  | keyError (k : String)
  | indexError
  | typeError
  | attributeError
  | nameError
deriving DecidableEq

/-- One HTTP exchange as an adapter observes it. -/
inductive HttpResult where
  | resp (status : Nat) (text : String) (body : Option PyJson) (dur : ℚ)
  | exn (msg : String) (dur : ℚ)

/-- Python `d[k]` for a string key: KeyError when a dict lacks the key,
TypeError on non-subscriptable / non-dict values (a string index into a
list or string is a TypeError too). -/
def pyIndex (j : PyJson) (k : String) : Except PyExn PyJson :=
  match j with
  | .obj kvs => match kvs.lookup k with
    | some v => .ok v
    | none => .error (.keyError k)
  | _ => .error .typeError

/-- Python `d[i]` for an integer index: element access on lists (and, for
totality of the model, single-character access on strings), IndexError
out of range, KeyError on dicts (an integer is not among these payloads'
string keys), TypeError otherwise. -/
def pyIndexNat (j : PyJson) (i : Nat) : Except PyExn PyJson :=
  match j with
  | .arr xs => match xs.get? i with
    | some v => .ok v
    | none => .error .indexError
  | .str s => if i < s.length then .ok (.str (s.take (i + 1) |>.drop i)) else .error .indexError
  | .obj _ => .error (.keyError (toString i))
  | _ => .error .typeError

/-- Python `d.get(k, default)`: AttributeError on non-dict values. -/
def pyGet (j : PyJson) (k : String) (dflt : PyJson) : Except PyExn PyJson :=
  match j with
  | .obj kvs => .ok ((kvs.lookup k).getD dflt)
  | _ => .error .attributeError

/-- Python `value == "literal"` for a JSON value: string equality when the
value is a string, `False` otherwise. -/
def pyEqStr (j : PyJson) (s : String) : Bool :=
  match j with
  | .str s2 => s2 = s
  | _ => false

/-- Rough `json.dumps` / `str()` of a JSON value, used only inside
diagnostic message strings (no claim inspects these beyond presence). -/
def pyDumps : PyJson → String
  | .null => "null"
  | .bool true => "true"
  | .bool false => "false"
  | .num q => toString q
  | .str s => "\x22" ++ s ++ "\x22"
  | .arr _ => "[...]"
  | .obj _ => "\x7b...\x7d"

/-- Python `str()` as interpolated into f-strings. -/
def pyStrOf : PyJson → String
  | .str s => s
  | j => pyDumps j

/-- ElevenLabs Scribe v2 adapter: one POST.  A non-2xx status becomes an
error payload with the same measured latency; a request exception or a
non-JSON body raises; otherwise the transcript is
`resp.json().get("text", "")`. -/
def call_elevenlabs (req : HttpResult) : Except PyExn (PyJson × ℚ × Option String) :=
  match req with
  | .exn msg _ => .error (.requestErr msg)
  | .resp status text body dur =>
    if status ≠ 200 then
      .ok (.null, dur, some ("HTTP " ++ toString status ++ ": " ++ text.take 200))
    else
      match body with
      | none => .error .jsonDecode
      | some j =>
        match pyGet j "text" (.str "") with
        | .error e => .error e
        | .ok v => .ok (v, dur, none)

/-- Deepgram Nova-3 adapter environment: the time spent reading the audio
file (latency measurement starts before the read) plus one POST. -/
structure DeepgramEnv where
  readDur : ℚ
  req : HttpResult

/-- The nested transcript extraction
`data["results"]["channels"][0]["alternatives"][0]["transcript"]`. -/
def dgExtract (j : PyJson) : Except PyExn PyJson := do
  let r1 ← pyIndex j "results"
  let r2 ← pyIndex r1 "channels"
  let r3 ← pyIndexNat r2 0
  let r4 ← pyIndex r3 "alternatives"
  let r5 ← pyIndexNat r4 0
  pyIndex r5 "transcript"

/-- Deepgram Nova-3 adapter: non-2xx becomes an error payload; a non-JSON
body raises (`resp.json()` is outside the `try`); `except (KeyError,
IndexError)` around the extraction becomes the "Unexpected response
shape" error payload, while a TypeError escapes. -/
def call_deepgram (env : DeepgramEnv) : Except PyExn (PyJson × ℚ × Option String) :=
  match env.req with
  | .exn msg _ => .error (.requestErr msg)
  | .resp status text body dur =>
    if status ≠ 200 then
      .ok (.null, env.readDur + dur, some ("HTTP " ++ toString status ++ ": " ++ text.take 200))
    else
      match body with
      | none => .error .jsonDecode
      | some data =>
        match dgExtract data with
        | .ok v => .ok (v, env.readDur + dur, none)
        | .error (.keyError _) =>
          .ok (.null, env.readDur + dur,
            some ("Unexpected response shape: " ++ (pyDumps data).take 200))
        | .error .indexError =>
          .ok (.null, env.readDur + dur,
            some ("Unexpected response shape: " ++ (pyDumps data).take 200))
        | .error e => .error e

/-- AssemblyAI adapter environment: upload and submit exchanges plus the
n-th poll exchange. -/
structure AaiEnv where
  upload : HttpResult
  submit : HttpResult
  poll : Nat → HttpResult

/-- Falling out of the polling loop: the timeout message interpolates the
`status` variable, which is unbound (NameError) when no poll ever ran. -/
def aaiTimeout (t : ℚ) (lastStatus : Option String) :
    Except PyExn (PyJson × ℚ × Option String) :=
  match lastStatus with
  | none => .error .nameError
  | some st =>
    .ok (.null, t, some ("Polling timed out after 600s (last status: " ++ st ++ ")"))

/-- The polling loop of `call_assemblyai`.  `t` is elapsed time since
invocation start (the deadline is `start + 600`), `n` counts polls, and
each non-terminal pass sleeps 3 s.  The loop re-checks the deadline before
every poll and advances `t` by at least 3 per pass, so the fuel the caller
supplies (`600/3 + 1 = 201`) can never run out before the deadline check
stops the loop; exhaustion (unreachable for nonnegative durations) gives
`none`. -/
def aaiPoll (env : AaiEnv) : Nat → ℚ → Nat → Option String →
    Option (Except PyExn (PyJson × ℚ × Option String))
  | 0, t, _, lastStatus => if t < 600 then none else some (aaiTimeout t lastStatus)
  | fuel + 1, t, n, lastStatus =>
    if t < 600 then
      match env.poll n with
      | .exn msg _ => some (.error (.requestErr msg))
      | .resp status text body dur =>
        if status ≠ 200 then
          some (.ok (.null, t + dur,
            some ("Poll failed HTTP " ++ toString status ++ ": " ++ text.take 200)))
        else
          match body with
          | none => some (.error .jsonDecode)
          | some j =>
            match pyIndex j "status" with
            | .error e => some (.error e)
            | .ok sv =>
              if pyEqStr sv "completed" then
                match pyGet j "text" (.str "") with
                | .error e => some (.error e)
                | .ok v => some (.ok (v, t + dur, none))
              else if pyEqStr sv "error" then
                match pyGet j "error" (.str "unknown") with
                | .error e => some (.error e)
                | .ok ev =>
                  some (.ok (.null, t + dur,
                    some ("Transcription error: " ++ pyStrOf ev)))
              else
                aaiPoll env fuel (t + dur + 3) (n + 1) (some (pyStrOf sv))
    else some (aaiTimeout t lastStatus)

/-- AssemblyAI Universal-2 adapter: upload, submit, then poll.  Any
non-2xx short-circuits to an error payload naming the step; missing JSON
bodies or missing `upload_url` / `id` keys raise. -/
def call_assemblyai (env : AaiEnv) :
    Option (Except PyExn (PyJson × ℚ × Option String)) :=
  match env.upload with
  | .exn msg _ => some (.error (.requestErr msg))
  | .resp status text body dur =>
    if status ≠ 200 then
      some (.ok (.null, dur,
        some ("Upload failed HTTP " ++ toString status ++ ": " ++ text.take 200)))
    else
      match body with
      | none => some (.error .jsonDecode)
      | some j =>
        match pyIndex j "upload_url" with
        | .error e => some (.error e)
        | .ok _ =>
          match env.submit with
          | .exn msg _ => some (.error (.requestErr msg))
          | .resp s2 t2 b2 d2 =>
            if s2 ≠ 200 then
              some (.ok (.null, dur + d2,
                some ("Submit failed HTTP " ++ toString s2 ++ ": " ++ t2.take 200)))
            else
              match b2 with
              | none => some (.error .jsonDecode)
              | some j2 =>
                match pyIndex j2 "id" with
                | .error e => some (.error e)
                | .ok _ => aaiPoll env 201 (dur + d2) 0 none

/-- C5 (refuted in part): a request timeout raises out of every adapter
(no `requests` call is wrapped in `try`), and a malformed — non-JSON —
response body raises out of `resp.json()`; neither becomes an error
payload inside the adapter (the orchestrator converts them, see C9). -/
theorem claim_C5_counterexample :
    call_elevenlabs (.exn "Read timed out. (read timeout=300)" 300) =
      .error (.requestErr "Read timed out. (read timeout=300)") ∧
    call_deepgram ⟨1, .resp 200 "<html>" none 5⟩ = .error .jsonDecode ∧
    call_assemblyai ⟨.exn "Read timed out. (read timeout=120)" 120,
      .resp 200 "" none 0, fun _ => .resp 200 "" none 0⟩ =
      some (.error (.requestErr "Read timed out. (read timeout=120)")) :=
  ⟨rfl, rfl, rfl⟩

/-- C5 amended: every HTTP non-2xx response — at each adapter's request,
and for AssemblyAI at each of its three steps — is returned as a payload
with a populated error field naming the step, not raised.  (Timeouts and
malformed bodies are excluded from the amended claim: they raise and are
converted to error outcomes at the orchestrator boundary.) -/
theorem claim_C5_non2xx_error_payload
    (status : Nat) (h : status ≠ 200) (text : String) (body : Option PyJson)
    (dur rdur : ℚ) (ubody sbody uv idv : PyJson)
    (hu : pyIndex ubody "upload_url" = .ok uv)
    (hs : pyIndex sbody "id" = .ok idv)
    (ud sd : ℚ) (hts : ud + sd < 600) (ut st2 : String)
    (submit2 : HttpResult) (poll2 : Nat → HttpResult) :
    call_elevenlabs (.resp status text body dur) =
      .ok (.null, dur, some ("HTTP " ++ toString status ++ ": " ++ text.take 200)) ∧
    call_deepgram ⟨rdur, .resp status text body dur⟩ =
      .ok (.null, rdur + dur,
        some ("HTTP " ++ toString status ++ ": " ++ text.take 200)) ∧
    call_assemblyai ⟨.resp status text body dur, submit2, poll2⟩ =
      some (.ok (.null, dur,
        some ("Upload failed HTTP " ++ toString status ++ ": " ++ text.take 200))) ∧
    call_assemblyai ⟨.resp 200 ut (some ubody) ud, .resp status text body dur, poll2⟩ =
      some (.ok (.null, ud + dur,
        some ("Submit failed HTTP " ++ toString status ++ ": " ++ text.take 200))) ∧
    call_assemblyai ⟨.resp 200 ut (some ubody) ud, .resp 200 st2 (some sbody) sd,
        fun _ => .resp status text body dur⟩ =
      some (.ok (.null, ud + sd + dur,
        some ("Poll failed HTTP " ++ toString status ++ ": " ++ text.take 200))) := by
  have h200 : ¬(200 : Nat) ≠ 200 := by omega
  refine ⟨?_, ?_, ?_, ?_, ?_⟩
  · simp only [call_elevenlabs]
    rw [if_pos h]
  · simp only [call_deepgram]
    rw [if_pos h]
  · simp only [call_assemblyai]
    rw [if_pos h]
  · simp only [call_assemblyai, if_neg h200, hu]
    rw [if_pos h]
  · simp only [call_assemblyai, if_neg h200, hu, hs,
      show (201 : Nat) = 200 + 1 from rfl]
    rw [aaiPoll]
    simp only [if_pos hts]
    rw [if_pos h]

/-- Witness for the amended C5 at a concrete 503 response. -/
theorem claim_C5_witness :
    call_elevenlabs (.resp 503 "busy" none 2) =
      .ok (.null, 2, some ("HTTP " ++ toString 503 ++ ": " ++ "busy".take 200)) ∧
    call_deepgram ⟨1, .resp 503 "busy" none 2⟩ =
      .ok (.null, 1 + 2, some ("HTTP " ++ toString 503 ++ ": " ++ "busy".take 200)) ∧
    call_assemblyai ⟨.resp 503 "busy" none 2, .resp 200 "" none 0,
        fun _ => .resp 200 "" none 0⟩ =
      some (.ok (.null, 2,
        some ("Upload failed HTTP " ++ toString 503 ++ ": " ++ "busy".take 200))) ∧
    call_assemblyai ⟨.resp 200 "u" (some (.obj [("upload_url", .str "url")])) 3,
        .resp 503 "busy" none 2, fun _ => .resp 200 "" none 0⟩ =
      some (.ok (.null, 3 + 2,
        some ("Submit failed HTTP " ++ toString 503 ++ ": " ++ "busy".take 200))) ∧
    call_assemblyai ⟨.resp 200 "u" (some (.obj [("upload_url", .str "url")])) 3,
        .resp 200 "s" (some (.obj [("id", .str "j")])) 4,
        fun _ => .resp 503 "busy" none 2⟩ =
      some (.ok (.null, 3 + 4 + 2,
        some ("Poll failed HTTP " ++ toString 503 ++ ": " ++ "busy".take 200))) :=
  claim_C5_non2xx_error_payload 503 (by omega) "busy" none 2 1
    (.obj [("upload_url", .str "url")]) (.obj [("id", .str "j")])
    (.str "url") (.str "j") rfl rfl 3 4 (by norm_num) "u" "s"
    (.resp 200 "" none 0) (fun _ => .resp 200 "" none 0)

/-- Deadline behavior of the polling loop under never-terminal 200
responses: once the `status` variable is bound, a poll pass happens only
while `t < 600`, each pass advances `t` by at least 3 (the fixed sleep),
and the loop returns the timeout error payload at the first deadline
check at or past 600 — it can never exhaust its fuel. -/
lemma aaiPoll_timeout (env : AaiEnv) (D : ℚ)
    (hpoll : ∀ n, ∃ body text dur, env.poll n = .resp 200 text (some body) dur ∧
      pyIndex body "status" = .ok (.str "processing") ∧ 0 ≤ dur ∧ dur ≤ D) :
    ∀ (fuel : Nat) (t : ℚ), t < 603 + D → 600 ≤ t + 3 * fuel → ∀ (n : Nat),
    ∃ lat, aaiPoll env fuel t n (some "processing") =
      some (.ok (.null, lat,
        some "Polling timed out after 600s (last status: processing)")) ∧
      600 ≤ lat ∧ lat < 603 + D
  | 0, t, hub, hlb, n => by
    push_cast at hlb
    have ht : ¬ t < 600 := by push_neg; linarith
    refine ⟨t, ?_, by linarith, hub⟩
    rw [aaiPoll, if_neg ht]
    rfl
  | fuel + 1, t, hub, hlb, n => by
    by_cases ht : t < 600
    · obtain ⟨body, text, dur, hpn, hstat, hd0, hdD⟩ := hpoll n
      obtain ⟨lat, heq, h1, h2⟩ := aaiPoll_timeout env D hpoll fuel (t + dur + 3)
        (by linarith) (by push_cast at hlb ⊢; linarith) (n + 1)
      refine ⟨lat, ?_, h1, h2⟩
      rw [aaiPoll, if_pos ht, hpn]
      simp only [hstat, pyEqStr, pyStrOf]
      rw [if_neg (by omega : ¬(200 : Nat) ≠ 200)]
      simp only [String.reduceEq, Bool.false_eq_true, if_false, decide_False]
      exact heq
    · refine ⟨t, ?_, by push_neg at ht; linarith, hub⟩
      rw [aaiPoll, if_neg ht]
      rfl

/-- C6 amended: with a well-formed upload/submit (durations within their
request timeouts) and polls that always return HTTP 200 with a
non-terminal status, the invocation stops polling at its first deadline
check at or past 600 s and returns the timeout error payload — never a
hang or an exception; its total latency is at least 600 s but can exceed
the deadline by up to one poll round-trip plus the 3 s sleep (strictly
below `603 + D` when every poll lasts at most `D`). -/
theorem claim_C6_deadline_bounded
    (ubody sbody : PyJson) (ut st2 : String) (ud sd : ℚ) (uv idv : PyJson)
    (hu : pyIndex ubody "upload_url" = .ok uv)
    (hs : pyIndex sbody "id" = .ok idv)
    (hud : 0 ≤ ud) (hud2 : ud ≤ 120) (hsd : 0 ≤ sd) (hsd2 : sd ≤ 30)
    (pbody : Nat → PyJson) (ptext : Nat → String) (pdur : Nat → ℚ) (D : ℚ)
    (hp : ∀ n, pyIndex (pbody n) "status" = .ok (.str "processing"))
    (hd : ∀ n, 0 ≤ pdur n ∧ pdur n ≤ D) :
    ∃ lat, call_assemblyai ⟨.resp 200 ut (some ubody) ud,
        .resp 200 st2 (some sbody) sd,
        fun n => .resp 200 (ptext n) (some (pbody n)) (pdur n)⟩ =
      some (.ok (.null, lat,
        some "Polling timed out after 600s (last status: processing)")) ∧
      600 ≤ lat ∧ lat < 603 + D := by
  have hD : 0 ≤ D := le_trans (hd 0).1 (hd 0).2
  have henv : ∀ n, ∃ body text dur,
      (fun n => HttpResult.resp 200 (ptext n) (some (pbody n)) (pdur n)) n =
        .resp 200 text (some body) dur ∧
      pyIndex body "status" = .ok (.str "processing") ∧ 0 ≤ dur ∧ dur ≤ D :=
    fun n => ⟨pbody n, ptext n, pdur n, rfl, hp n, (hd n).1, (hd n).2⟩
  obtain ⟨lat, heq, h1, h2⟩ := aaiPoll_timeout
    ⟨.resp 200 ut (some ubody) ud, .resp 200 st2 (some sbody) sd,
     fun n => .resp 200 (ptext n) (some (pbody n)) (pdur n)⟩ D henv
    200 (ud + sd + pdur 0 + 3) (by have := (hd 0).2; linarith)
    (by push_cast; have := (hd 0).1; linarith) 1
  refine ⟨lat, ?_, h1, h2⟩
  have h200 : ¬(200 : Nat) ≠ 200 := by omega
  simp only [call_assemblyai, if_neg h200, hu, hs,
    show (201 : Nat) = 200 + 1 from rfl]
  rw [aaiPoll, if_pos (by linarith : ud + sd < 600)]
  simp only [hp 0, pyEqStr, pyStrOf]
  rw [if_neg h200]
  simp only [String.reduceEq, Bool.false_eq_true, if_false, decide_False]
  exact heq

/-- Concrete polling environment for the C6 counterexample: instantaneous
upload and submit, then every poll is non-terminal and takes 590 s (the
per-request 30 s `timeout` bounds gaps between received bytes, not a slow
streaming response's total duration, so nothing in the code bounds one
poll's wall time). -/
def envC6 : AaiEnv :=
  ⟨.resp 200 "" (some (.obj [("upload_url", .str "u")])) 0,
   .resp 200 "" (some (.obj [("id", .str "j")])) 0,
   fun _ => .resp 200 "" (some (.obj [("status", .str "processing")])) 590⟩

/-- C6 (refuted in part): the invocation does NOT always terminate within
the 600 s deadline measured from invocation start — the deadline is only
re-checked between polls, so a poll straddling it runs to completion.
Here the second poll is dispatched at t = 593 < 600 and the invocation
returns at t = 1186 s, with the timeout error outcome (no hang, no
exception). -/
theorem claim_C6_counterexample :
    call_assemblyai envC6 = some (.ok (.null, 1186,
      some "Polling timed out after 600s (last status: processing)")) ∧
    ¬((1186 : ℚ) ≤ 600) := by
  constructor
  · have h200 : ¬(200 : Nat) ≠ 200 := by omega
    have hu2 : pyIndex (.obj [("upload_url", PyJson.str "u")]) "upload_url" =
      .ok (.str "u") := rfl
    have hs2 : pyIndex (.obj [("id", PyJson.str "j")]) "id" = .ok (.str "j") := rfl
    have hst : pyIndex (.obj [("status", PyJson.str "processing")]) "status" =
      .ok (.str "processing") := rfl
    have hc1 : pyEqStr (.str "processing") "completed" = false := rfl
    have hc2 : pyEqStr (.str "processing") "error" = false := rfl
    have hc3 : pyStrOf (.str "processing") = "processing" := rfl
    simp only [envC6, call_assemblyai, if_neg h200, hu2, hs2,
      show (201 : Nat) = 200 + 1 from rfl]
    rw [aaiPoll, if_pos (by norm_num : (0 : ℚ) + 0 < 600)]
    simp only [if_neg h200, hst, hc1, hc2, hc3, Bool.false_eq_true, if_false]
    rw [show (200 : Nat) = 199 + 1 from rfl,
      aaiPoll, if_pos (by norm_num : (0 : ℚ) + 0 + 590 + 3 < 600)]
    simp only [if_neg h200, hst, hc1, hc2, hc3, Bool.false_eq_true, if_false]
    rw [show (199 : Nat) = 198 + 1 from rfl,
      aaiPoll, if_neg (by norm_num : ¬((0 : ℚ) + 0 + 590 + 3 + 590 + 3 < 600))]
    simp only [aaiTimeout]
    norm_num
    rfl
  · norm_num

/-- Witness for the amended C6: zero-cost upload/submit and 590 s
never-terminal polls. -/
theorem claim_C6_witness :
    ∃ lat, call_assemblyai ⟨.resp 200 "" (some (.obj [("upload_url", .str "u")])) 0,
        .resp 200 "" (some (.obj [("id", .str "j")])) 0,
        fun n => .resp 200 "" (some (.obj [("status", .str "processing")])) ((fun _ => (590 : ℚ)) n)⟩ =
      some (.ok (.null, lat,
        some "Polling timed out after 600s (last status: processing)")) ∧
      600 ≤ lat ∧ lat < 603 + 590 :=
  claim_C6_deadline_bounded (.obj [("upload_url", .str "u")])
    (.obj [("id", .str "j")]) "" "" 0 0 (.str "u") (.str "j") rfl rfl
    (by norm_num) (by norm_num) (by norm_num) (by norm_num)
    (fun _ => .obj [("status", .str "processing")]) (fun _ => "")
    (fun _ => 590) 590 (fun _ => rfl) (fun _ => by norm_num)

/-! ### The report generator (`generate_report`) -/

/-- One `summaries` tuple:
`(name, avg_lat, min_lat, avg_chars, avg_sim, errors, total)`. -/
structure Summary where
  name : String
  avgLat : ℚ
  minLat : ℚ
  avgChars : ℚ
  avgSim : ℚ
  errs : Nat
  total : Nat
deriving DecidableEq

/-- `[r for r in runs if "transcript" in r]` — key presence. -/
def successes (runs : List RunEntry) : List RunEntry :=
  runs.filter (fun r => r.transcript.isSome)

/-- `[r for r in runs if "error" in r]`. -/
def errorRuns (runs : List RunEntry) : List RunEntry :=
  runs.filter (fun r => r.error.isSome)

/-- `r["chars"]` on a success row.  Entries built by `run_eval` always
store `chars` together with `transcript`, so the 0 default is never
exercised on the orchestrator's output. -/
def charsOf (r : RunEntry) : Nat := r.chars.getD 0

/-- `r["transcript"]` on a success row, as the string fed to `similarity`
(entries with a present, non-`None` transcript — `run_eval` success rows —
hit the stored string; the `""` default stands in for the `None` value on
which Python's `similarity` would raise). -/
def transcriptOf (r : RunEntry) : String := (r.transcript.getD none).getD ""

/-- Python `min(...)` over a nonempty list (the empty case is unreachable:
the report only takes a minimum over a nonempty success list). -/
def pyMin (xs : List ℚ) : ℚ :=
  match xs with
  | [] => 999
  | x :: rest => rest.foldl min x

/-- One provider's `summaries` tuple: the sentinel row
`(name, 999, 999, 0, 0, errs, total)` when it has no successes, otherwise
the mean/min aggregates (mean similarity is 0 when the consensus is
empty). -/
def mkSummary (consensus : String) (pr : String × List RunEntry) : Summary :=
  if (successes pr.2).isEmpty then
    { name := pr.1, avgLat := 999, minLat := 999, avgChars := 0, avgSim := 0,
      errs := (errorRuns pr.2).length, total := pr.2.length }
  else
    { name := pr.1,
      avgLat := ((successes pr.2).map (fun r => r.latency)).sum /
        (successes pr.2).length,
      minLat := pyMin ((successes pr.2).map (fun r => r.latency)),
      avgChars := ((successes pr.2).map (fun r => (charsOf r : ℚ))).sum /
        (successes pr.2).length,
      avgSim := if consensus = "" then 0
        else ((successes pr.2).map
          (fun r => similarity (transcriptOf r) consensus)).sum /
          (successes pr.2).length,
      errs := (errorRuns pr.2).length, total := pr.2.length }

/-- The `summaries` list, one tuple per provider in `ResultSet` order. -/
def summaries (results : ResultSet) (consensus : String) : List Summary :=
  results.map (mkSummary consensus)

/-- `summaries.sort(key=lambda x: x[1])` — a stable ascending sort on
`avg_lat`, modelled with the (stable) `mergeSort`. -/
def sortedSummaries (results : ResultSet) (consensus : String) : List Summary :=
  (summaries results consensus).mergeSort (fun a b => decide (a.avgLat ≤ b.avgLat))

/-- A rendered latency-table row: the `avg_lat == 999` sentinel check
renders em-dashes for latency, characters and similarity; other rows
render their numbers. -/
inductive ReportRow where
  | unavailable (name : String) (errs total : Nat)
  | data (s : Summary)
deriving DecidableEq

/-- The latency table's rows, in final report order. -/
def reportRows (results : ResultSet) (consensus : String) : List ReportRow :=
  (sortedSummaries results consensus).map (fun s =>
    if s.avgLat = 999 then .unavailable s.name s.errs s.total else .data s)

/-- C7 amended: the report lists providers in ascending order of the
`avg_lat` sort key, where an all-failed provider's key is the sentinel
999 (its row rendering as "unavailable" em-dashes, not zeros); hence every
summary whose mean latency is strictly below 999 precedes every sentinel
row.  (The original claim's "all-failed providers sort after every
provider with a success" fails when a successful provider's mean latency
reaches 999, since sentinel and real latencies share one ordering key.) -/
theorem claim_C7_report_order (results : ResultSet) (consensus : String) :
    List.Pairwise (fun a b => a.avgLat ≤ b.avgLat)
      (sortedSummaries results consensus) ∧
    (sortedSummaries results consensus).Perm (summaries results consensus) ∧
    (∀ pr ∈ results, successes pr.2 = [] →
      mkSummary consensus pr =
        { name := pr.1, avgLat := 999, minLat := 999, avgChars := 0,
          avgSim := 0, errs := (errorRuns pr.2).length,
          total := pr.2.length } ∧
      ReportRow.unavailable pr.1 (errorRuns pr.2).length pr.2.length ∈
        reportRows results consensus) ∧
    (∀ i j : Fin (sortedSummaries results consensus).length,
      ((sortedSummaries results consensus).get i).avgLat < 999 →
      ((sortedSummaries results consensus).get j).avgLat = 999 → i < j) := by
  have htrans : ∀ (a b c : Summary),
      (fun x y : Summary => decide (x.avgLat ≤ y.avgLat)) a b = true →
      (fun x y : Summary => decide (x.avgLat ≤ y.avgLat)) b c = true →
      (fun x y : Summary => decide (x.avgLat ≤ y.avgLat)) a c = true := by
    intro a b c h1 h2
    simp only [decide_eq_true_eq] at h1 h2 ⊢
    exact le_trans h1 h2
  have htot : ∀ (a b : Summary),
      ((fun x y : Summary => decide (x.avgLat ≤ y.avgLat)) a b ||
       (fun x y : Summary => decide (x.avgLat ≤ y.avgLat)) b a) = true := by
    intro a b
    simp only [Bool.or_eq_true, decide_eq_true_eq]
    exact le_total a.avgLat b.avgLat
  have hsorted : List.Pairwise (fun a b => a.avgLat ≤ b.avgLat)
      (sortedSummaries results consensus) := by
    have h0 := List.sorted_mergeSort htrans htot (summaries results consensus)
    exact h0.imp (fun h => by
      simp only [decide_eq_true_eq] at h
      exact h)
  refine ⟨hsorted, List.mergeSort_perm _ _, ?_, ?_⟩
  · intro pr hpr hfail
    have hsent : mkSummary consensus pr =
        { name := pr.1, avgLat := 999, minLat := 999, avgChars := 0,
          avgSim := 0, errs := (errorRuns pr.2).length,
          total := pr.2.length } := by
      unfold mkSummary
      rw [if_pos (by simp [hfail])]
    refine ⟨hsent, ?_⟩
    have hmem : mkSummary consensus pr ∈ sortedSummaries results consensus :=
      ((List.mergeSort_perm _ _).mem_iff).mpr
        (List.mem_map_of_mem (mkSummary consensus) hpr)
    have : (if (mkSummary consensus pr).avgLat = 999 then
        ReportRow.unavailable (mkSummary consensus pr).name
          (mkSummary consensus pr).errs (mkSummary consensus pr).total
      else ReportRow.data (mkSummary consensus pr)) ∈
        reportRows results consensus :=
      List.mem_map_of_mem _ hmem
    rw [hsent] at this
    simpa using this
  · intro i j h1 h2
    rcases Nat.lt_trichotomy (i : Nat) (j : Nat) with h | h | h
    · exact h
    · exfalso
      have : i = j := Fin.ext h
      rw [this, h2] at h1
      exact absurd h1 (by norm_num)
    · exfalso
      have := List.pairwise_iff_get.mp hsorted j i h
      rw [h2] at this
      linarith

/-- Two-provider `ResultSet` for the C7 counterexample: one all-failed
provider, one successful provider whose mean latency exceeds the 999
sentinel. -/
def c7results : ResultSet :=
  [("FailedProvider", [{ iteration := 1, latency := 5, error := some "boom" }]),
   ("SlowProvider",
    [{ iteration := 1, latency := 1000, transcript := some (some "hi"),
       chars := some 2 }])]

/-- C7 (refuted in part): the all-failed provider is ranked FIRST, before
a provider with a success, because the sentinel 999 participates in the
same ordering key as real mean latencies and the successful provider's
mean latency (1000 s) exceeds it. -/
theorem claim_C7_counterexample :
    successes
      [{ iteration := 1, latency := 1000, transcript := some (some "hi"),
         chars := some 2 }] ≠ [] ∧
    reportRows c7results "" =
      [.unavailable "FailedProvider" 1 1,
       .data
         { name := "SlowProvider", avgLat := 1000, minLat := 1000,
           avgChars := 2, avgSim := 0, errs := 0, total := 1 }] := by
  constructor
  · decide
  · have hsum : summaries c7results "" =
        [{ name := "FailedProvider", avgLat := 999, minLat := 999,
           avgChars := 0, avgSim := 0, errs := 1, total := 1 },
         { name := "SlowProvider", avgLat := 1000, minLat := 1000,
           avgChars := 2, avgSim := 0, errs := 0, total := 1 }] := by
      simp only [summaries, c7results, List.map_cons, List.map_nil, mkSummary,
        successes, errorRuns, charsOf, pyMin]
      norm_num [List.filter]
    have hms : List.mergeSort
        ([{ name := "FailedProvider", avgLat := 999, minLat := 999,
            avgChars := 0, avgSim := 0, errs := 1, total := 1 },
          { name := "SlowProvider", avgLat := 1000, minLat := 1000,
            avgChars := 2, avgSim := 0, errs := 0, total := 1 }] : List Summary)
        (fun a b => decide (a.avgLat ≤ b.avgLat)) =
        ([{ name := "FailedProvider", avgLat := 999, minLat := 999,
            avgChars := 0, avgSim := 0, errs := 1, total := 1 },
          { name := "SlowProvider", avgLat := 1000, minLat := 1000,
            avgChars := 2, avgSim := 0, errs := 0, total := 1 }] : List Summary) := by
      norm_num [List.mergeSort, List.merge]
    rw [reportRows, sortedSummaries, hsum, hms]
    simp only [List.map_cons, List.map_nil]
    norm_num

/-- Witness for the amended C7 at the concrete two-provider `ResultSet`. -/
theorem claim_C7_witness :
    List.Pairwise (fun a b => a.avgLat ≤ b.avgLat)
      (sortedSummaries c7results "") ∧
    (sortedSummaries c7results "").Perm (summaries c7results "") ∧
    (∀ pr ∈ c7results, successes pr.2 = [] →
      mkSummary "" pr =
        { name := pr.1, avgLat := 999, minLat := 999, avgChars := 0,
          avgSim := 0, errs := (errorRuns pr.2).length,
          total := pr.2.length } ∧
      ReportRow.unavailable pr.1 (errorRuns pr.2).length pr.2.length ∈
        reportRows c7results "") ∧
    (∀ i j : Fin (sortedSummaries c7results "").length,
      ((sortedSummaries c7results "").get i).avgLat < 999 →
      ((sortedSummaries c7results "").get j).avgLat = 999 → i < j) :=
  claim_C7_report_order c7results ""

end SttEval
